import Mathlib

/-!
A verification development for the push-based channel layer of a streaming
dataflow engine: the `MapPusher` transforming pusher, the `Tee` multicast
fan-out with its registration front-end `TeeHelper`, and the `map` family of
stream combinators built on them.

Modelling conventions:
* a batch (`Content<D>`) is modelled by the list of its records (`List D`);
* timestamps are an arbitrary type `T`;
* a sink is identified by an opaque value (`α` for byref sinks, `β` for
  owning sinks); a call to a sink is recorded as a pair of the sink and the
  message it was handed;
* the shared, reference-counted sink lists behind a `Tee`/`TeeHelper` pair
  are cells of an explicit `World`, indexed by cell id, so that cloning a
  `Tee` or a `TeeHelper` copies the cell id and clones observe one list;
* a delivery to an owning sink carries a flag telling whether the storage
  handed over was the tee's scratch buffer (`true`, an independent copy) or
  the original batch allocation (`false`).
-/

set_option autoImplicit false

variable {T D D1 D2 α β : Type}

/-- Modelled from the spec: `Content::from_typed` and `Content::replace_with`
(the Batch component's ownership-transfer operations, which live outside the
files under study) exchange a batch's backing storage; on the record contents
they are the identity, so a batch is modelled as the list of its records. -/
def Content.from_typed (data : List D) : List D := data

/-- Modelled from the spec: `Content::push_at` (outside the files under study)
wraps the buffer's contents as a batch, delivers it to the given pusher tagged
with the given timestamp, and leaves the buffer logically empty for reuse.
Here it returns the delivered message; the callers below thread the emptied
buffer explicitly. -/
def Content.push_at (buffer : List D) (time : T) : T × List D :=
  (time, buffer)

/-- One call to `MapPusher::push`: the incoming slot is emptied with
`Option::take`, the function is applied to the taken value, and the result is
forwarded to the inner pusher by exactly one inner `push` call. The result is
the caller's slot after the call, paired with the list of messages forwarded
to the inner pusher (one entry per inner `push` call). -/
def MapPusher.push (func : D1 → D2) (message : Option D1) :
    Option D1 × List (Option D2) :=
  let mapped := Option.map func message
  (none, [mapped])

/-- One call to `MapPusher::push_ref`: the borrowed message is mapped and the
owned result is forwarded by exactly one inner `push` call; the caller's value
is only borrowed, never consumed. -/
def MapPusher.push_ref (func : D1 → D2) (message : Option D1) :
    List (Option D2) :=
  let mapped := Option.map func message
  [mapped]

/-- The batch-level closure `Map::map` hands to `map_batch`: take the contents
out of the batch, map `logic` over each record in order, rewrap. -/
def Map.mapLogic (logic : D → D2) (data : List D) : List D2 :=
  Content.from_typed (List.map logic data)

/-- The message-level closure `map_batch` builds around a batch-level `logic`:
the timestamp passes through unchanged and the batch goes through `logic`. -/
def Map.mapBatchFn (logic : List D → List D2) (m : T × List D) : T × List D2 :=
  (m.1, logic m.2)

/-- The messages that arrive at the downstream tee when the messages `msgs`
are pushed, one by one, into the `MapPusher` that `map` installs on the
upstream stream: the forwarded messages of each push, concatenated in push
order. -/
def Map.mapStream (logic : D → D2) (msgs : List (T × List D)) :
    List (Option (T × List D2)) :=
  List.flatten (List.map
    (fun m => (MapPusher.push (Map.mapBatchFn (Map.mapLogic logic)) (some m)).2)
    msgs)

/-- The shared state behind all `Tee`/`TeeHelper` pairs: the contents of the
reference-counted sink-list cells, indexed by cell id. Byref sinks (`α`) and
owning sinks (`β`) live in separate cell families, mirroring the two separate
reference-counted vectors in the source. -/
structure World (α β : Type) where
  refCells : Nat → List α
  ownCells : Nat → List β

/-- A `Tee`: its private scratch buffer and the cell ids of its two shared
sink lists. -/
structure Tee (D : Type) where
  buffer : List D
  ref_outputs : Nat
  outputs : Nat

/-- A `TeeHelper`: the cell ids of the two shared sink lists it registers
into. -/
structure TeeHelper where
  ref_outputs : Nat
  outputs : Nat

/-- `Tee::new`: a fresh `Tee` (empty buffer) and its paired `TeeHelper`,
both holding the same two freshly allocated shared cells. -/
def Tee.new (c1 c2 : Nat) : Tee D × TeeHelper :=
  (⟨[], c1, c2⟩, ⟨c1, c2⟩)

/-- `Clone for Tee`: a fresh (empty) scratch buffer, but the same two shared
sink-list cells. -/
def Tee.clone (t : Tee D) : Tee D :=
  ⟨[], t.ref_outputs, t.outputs⟩

/-- `Clone for TeeHelper`: the same two shared sink-list cells. -/
def TeeHelper.clone (h : TeeHelper) : TeeHelper :=
  ⟨h.ref_outputs, h.outputs⟩

/-- `TeeHelper::add_ref_pusher`: append the new byref sink to the shared
byref list. -/
def TeeHelper.add_ref_pusher (h : TeeHelper) (w : World α β) (p : α) :
    World α β :=
  ⟨fun c => if c = h.ref_outputs then w.refCells c ++ [p] else w.refCells c,
   w.ownCells⟩

/-- `TeeHelper::add_pusher`: append the new owning sink to the shared owning
list. -/
def TeeHelper.add_pusher (h : TeeHelper) (w : World α β) (p : β) :
    World α β :=
  ⟨w.refCells,
   fun c => if c = h.outputs then w.ownCells c ++ [p] else w.ownCells c⟩

/-- The first loop of `Tee::push`: every byref sink, in list order, receives
`push_ref` of a borrow of the message (whether `some` or `none`). -/
def teeRefGo (message : Option (T × List D)) :
    List α → List (α × Option (T × List D))
  | [] => []
  | r :: rest => (r, message) :: teeRefGo message rest

/-- The owning loop of `Tee::push` on a `some (time, data)` message,
recursing over the remaining owning sinks with the current scratch buffer.
A sink that is not last (`index < pushers.len() - 1`) receives, via
`Content::push_at`, the scratch buffer extended with a copy of `data`
(flag `true`; `push_at` empties the buffer, so the recursion continues with
`[]`). The last sink receives, via `Content::push_at`, the original batch
`data` itself (flag `false`). -/
def teeOwnGo (time : T) (data : List D) :
    List β → List D → List (β × Option (T × List D × Bool))
  | [], _ => []
  | [p], _ =>
      let msg := Content.push_at data time
      [(p, some (msg.1, msg.2, false))]
  | p :: q :: rest, buffer =>
      let msg := Content.push_at (buffer ++ data) time
      (p, some (msg.1, msg.2, true)) :: teeOwnGo time data (q :: rest) []

/-- The owning loop of `Tee::push` on a `none` message: every owning sink,
in list order, receives `push (none)`. -/
def teeNoneGo : List β → List (β × Option (T × List D × Bool))
  | [] => []
  | p :: rest => (p, none) :: teeNoneGo rest

/-- The owning half of `Tee::push`: dispatch on the message as the source's
`if let Some((time, data)) = *message` does. -/
def teePushOwn (owns : List β) (buffer : List D)
    (message : Option (T × List D)) : List (β × Option (T × List D × Bool)) :=
  match message with
  | some (time, data) => teeOwnGo time data owns buffer
  | none => teeNoneGo owns

/-- The byref half of `Tee::push`. -/
def teePushRef (refs : List α) (message : Option (T × List D)) :
    List (α × Option (T × List D)) :=
  teeRefGo message refs

/-- `Tee::push` against the shared world: the byref deliveries (made first)
to the sinks of its byref cell, and the owning deliveries to the sinks of
its owning cell. -/
def Tee.push (t : Tee D) (w : World α β) (message : Option (T × List D)) :
    List (α × Option (T × List D)) × List (β × Option (T × List D × Bool)) :=
  (teePushRef (w.refCells t.ref_outputs) message,
   teePushOwn (w.ownCells t.outputs) t.buffer message)

mutual

/-- A chain (tree) of pushers wired together from the two building blocks of
this layer, with terminal sinks at the leaves. `sink i` is a terminal sink
named `i`; `mapP f next` is a `MapPusher` forwarding the mapped message to
`next` by one inner push; `tee refs owns` is a `Tee` forwarding one incoming
message to every byref child and then every owning child, in registration
order (each child receives a value-equal message: byref children a borrow of
it, owning children a copy or, for the last one, the original). Messages are
values of an arbitrary type `M`. -/
inductive Node (M : Type) where
  | sink : Nat → Node M
  | mapP : (M → M) → Node M → Node M
  | tee : NodeList M → NodeList M → Node M

/-- A registration-ordered list of children of a `tee` node. -/
inductive NodeList (M : Type) where
  | nil : NodeList M
  | cons : Node M → NodeList M → NodeList M

end

mutual

/-- The deliveries caused at the terminal sinks by one push of `message`
into the chain: pairs of the sink's name and the message value it receives,
in delivery order. -/
def Node.deliver {M : Type} : Node M → Option M → List (Nat × Option M)
  | .sink i, message => [(i, message)]
  | .mapP func next, message => Node.deliver next (Option.map func message)
  | .tee refs owns, message =>
      NodeList.deliver refs message ++ NodeList.deliver owns message

/-- The deliveries caused by handing one message to each child in order. -/
def NodeList.deliver {M : Type} : NodeList M → Option M → List (Nat × Option M)
  | .nil, _ => []
  | .cons n rest, message =>
      Node.deliver n message ++ NodeList.deliver rest message

end

mutual

/-- The terminal sinks of a chain paired with the end-to-end transformation
a pushed message undergoes on the way to each, in delivery order. This is
determined by the wiring alone, independently of any message. -/
def Node.paths {M : Type} : Node M → List (Nat × (Option M → Option M))
  | .sink i => [(i, fun message => message)]
  | .mapP func next =>
      (Node.paths next).map
        (fun p => (p.1, fun message => p.2 (Option.map func message)))
  | .tee refs owns => NodeList.paths refs ++ NodeList.paths owns

/-- The paths of each child in order. -/
def NodeList.paths {M : Type} : NodeList M → List (Nat × (Option M → Option M))
  | .nil => []
  | .cons n rest => Node.paths n ++ NodeList.paths rest

end

/-- Pushing a finite sequence of messages into a chain, one after the other:
the deliveries of each push, concatenated in push order. -/
def Node.runSeq {M : Type} (n : Node M) (msgs : List (Option M)) :
    List (Nat × Option M) :=
  List.flatten (msgs.map (fun message => Node.deliver n message))

/-- The trace a terminal sink named `j` observes over a sequence of pushes:
the messages delivered to it, in order. -/
def Node.observedAt {M : Type} (n : Node M) (j : Nat)
    (msgs : List (Option M)) : List (Option M) :=
  ((Node.runSeq n msgs).filter (fun p => p.1 == j)).map Prod.snd

/-- The end-to-end transformations reaching the terminal sink named `j`,
one entry per occurrence of `j` in the chain. -/
def Node.transformsTo {M : Type} (n : Node M) (j : Nat) :
    List (Option M → Option M) :=
  ((Node.paths n).filter (fun p => p.1 == j)).map Prod.snd

/-- Modelled from the spec: a `Scope` mints fresh named outputs; its
`new_output` hands back a fresh stream identity and advances the mint. The
scope state is reduced to the next fresh identity. -/
structure Scope where
  nextName : Nat

/-- Modelled from the spec: `Scope::new_output` returns the freshly minted
stream identity and the advanced scope. -/
def Scope.new_output (sc : Scope) : Scope × Nat :=
  (⟨sc.nextName + 1⟩, sc.nextName)

/-- Modelled from the spec: a stream handle is a (name, registration handle,
owning-scope reference) triple; `Stream::new` wraps the three fields as
given. The registration handle is a `TeeHelper`, the scope reference an
opaque id. -/
structure StreamHandle where
  name : Nat
  ports : TeeHelper
  scopeRef : Nat

/-- Graph-construction state for the combinator layer: the next free shared
cell id handed out to `Tee::new`, the scope, and the number of owning sinks
attached to each owning-sink cell (the transformation closures themselves
are tracked by the pusher-level model above). -/
structure Graph where
  nextCell : Nat
  scope : Scope
  attachedOwn : Nat → Nat

/-- `Map::map_batch` as the source writes it: allocate `(targets, registrar)`
by `Tee::new` (two fresh shared cells), attach a `MapPusher` wrapping
`targets` to the upstream stream's own sink list (`self.add_pusher`), and
return `Stream::new(*self.name(), registrar, self.scope())` — a stream
carrying the upstream stream's name, the fresh registrar, and the upstream
scope reference. No `Scope::new_output` call is made. -/
def StreamHandle.map_batch (s : StreamHandle) (g : Graph) : StreamHandle × Graph :=
  let registrar : TeeHelper := (Tee.new (D := Unit) g.nextCell (g.nextCell + 1)).2
  let g1 : Graph :=
    ⟨g.nextCell + 2, g.scope,
     fun c => if c = s.ports.outputs then g.attachedOwn c + 1
              else g.attachedOwn c⟩
  (⟨s.name, registrar, s.scopeRef⟩, g1)

/-- C4: a `MapPusher` applies its function exactly once per message and
forwards exactly once, with no buffering: `push (some x)` forwards
`some (func x)` by a single inner push, `push none` forwards `none`;
`push_ref` behaves the same on a borrowed message. -/
theorem c4_map_pusher_relay (func : D1 → D2) (x : D1) :
    MapPusher.push func (some x) = (none, [some (func x)]) ∧
    MapPusher.push func (none : Option D1) = (none, [none]) ∧
    MapPusher.push_ref func (some x) = [some (func x)] ∧
    MapPusher.push_ref func (none : Option D1) = [none] :=
  ⟨rfl, rfl, rfl, rfl⟩

/-- C10: after any call to `MapPusher::push`, the caller's message slot is
left `none`, whether it held `some` or `none` on entry: the pusher takes the
value out of the caller's option and never puts it back. -/
theorem c10_map_pusher_takes_slot (func : D1 → D2) (message : Option D1) :
    (MapPusher.push func message).1 = none :=
  rfl

/-- C3: pushing the batches `msgs = (t1, B1), ..., (tn, Bn)` through the
pusher installed by `map logic` yields exactly `n` messages, where message
`i` is `some (ti, List.map logic Bi)`: each output batch is `logic` applied
to each record of the input batch in order, under the unchanged timestamp. -/
theorem c3_map_batchwise (logic : D → D2) (msgs : List (T × List D)) :
    Map.mapStream logic msgs
      = List.map (fun m => some (m.1, List.map logic m.2)) msgs ∧
    (Map.mapStream logic msgs).length = msgs.length := by
  constructor
  · induction msgs with
    | nil => rfl
    | cons m rest ih =>
        simp only [Map.mapStream, List.map_cons, List.flatten_cons,
          MapPusher.push, Map.mapBatchFn, Map.mapLogic, Content.from_typed,
          Option.map_some, List.singleton_append] at *
        exact congrArg _ ih
  · induction msgs with
    | nil => rfl
    | cons m rest ih =>
        simp only [Map.mapStream, List.map_cons, List.flatten_cons,
          MapPusher.push, List.singleton_append, List.length_cons] at *
        exact congrArg Nat.succ ih

theorem teeRefGo_eq_map (message : Option (T × List D)) :
    ∀ refs : List α, teeRefGo message refs = refs.map (fun r => (r, message))
  | [] => rfl
  | r :: rest => by
      simp only [teeRefGo, List.map_cons]
      exact congrArg _ (teeRefGo_eq_map message rest)

theorem teeNoneGo_eq_map :
    ∀ owns : List β,
      teeNoneGo (T := T) (D := D) owns = owns.map (fun p => (p, none))
  | [] => rfl
  | p :: rest => by
      simp only [teeNoneGo, List.map_cons]
      exact congrArg _ (teeNoneGo_eq_map rest)

theorem teeOwnGo_map_fst (time : T) (data : List D) :
    ∀ (owns : List β) (buffer : List D),
      (teeOwnGo time data owns buffer).map Prod.fst = owns
  | [], _ => rfl
  | [_], _ => rfl
  | p :: q :: rest, buffer => by
      simp only [teeOwnGo, List.map_cons]
      exact congrArg _ (teeOwnGo_map_fst time data (q :: rest) [])

theorem teePushOwn_map_fst (owns : List β) (buffer : List D)
    (message : Option (T × List D)) :
    (teePushOwn owns buffer message).map Prod.fst = owns := by
  cases message with
  | none =>
      simp only [teePushOwn, teeNoneGo_eq_map, List.map_map]
      exact List.map_id owns
  | some m => exact teeOwnGo_map_fst m.1 m.2 owns buffer

theorem teePushRef_map_fst (refs : List α) (message : Option (T × List D)) :
    (teePushRef refs message).map Prod.fst = refs := by
  induction refs with
  | nil => rfl
  | cons r rest ih =>
      simp only [teePushRef, teeRefGo, List.map_cons] at *
      exact congrArg _ ih

theorem teeOwnGo_length (time : T) (data : List D) (owns : List β)
    (buffer : List D) : (teeOwnGo time data owns buffer).length = owns.length := by
  have h := teeOwnGo_map_fst time data owns buffer
  calc (teeOwnGo time data owns buffer).length
      = ((teeOwnGo time data owns buffer).map Prod.fst).length :=
        (List.length_map _ _).symm
    _ = owns.length := by rw [h]

theorem teeOwnGo_get_empty (time : T) (data : List D) :
    ∀ (owns : List β) (i : Nat) (p : β × Option (T × List D × Bool)),
      (teeOwnGo time data owns []).get? i = some p →
      p.2 = some (time, data, decide (i + 1 < owns.length)) ∧
        some p.1 = owns.get? i
  | [], i, p, h => by simp [teeOwnGo] at h
  | [q], i, p, h => by
      cases i with
      | zero =>
          simp only [teeOwnGo, Content.push_at, List.get?] at h
          cases h
          simp
      | succ j => simp [teeOwnGo] at h
  | q :: r :: rest, i, p, h => by
      cases i with
      | zero =>
          simp only [teeOwnGo, Content.push_at, List.nil_append,
            List.get?] at h
          cases h
          simp
      | succ j =>
          simp only [teeOwnGo, List.get?] at h
          have ih := teeOwnGo_get_empty time data (r :: rest) j p h
          refine ⟨?_, ih.2⟩
          rw [ih.1]
          have : decide (j + 1 < (r :: rest).length)
              = decide (j + 1 + 1 < (q :: r :: rest).length) := by
            simp only [List.length_cons]
            exact decide_eq_decide.mpr (by omega)
          rw [this]

theorem teeOwnGo_all_isSome (time : T) (data : List D) :
    ∀ (owns : List β) (buffer : List D),
      ((teeOwnGo time data owns buffer).all fun q => q.2.isSome) = true
  | [], _ => rfl
  | [_], _ => rfl
  | p :: q :: rest, buffer => by
      simp only [teeOwnGo, List.all_cons, Option.isSome_some, Bool.true_and]
      exact teeOwnGo_all_isSome time data (q :: rest) []

/-- C1: pushing `some (time, data)` into a tee with owning sinks visits every
owning sink: delivery `i` goes to sink `i`, its batch contents equal `data`
and its timestamp equals `time`, every sink except the last receives the
tee's scratch buffer (an independently owned copy, flag `true`), and only
the last sink receives the original batch storage (flag `false`). -/
theorem c1_tee_fanout_contents (owns : List β) (time : T) (data : List D)
    (i : Nat) (p : β × Option (T × List D × Bool))
    (hp : (teePushOwn owns [] (some (time, data))).get? i = some p) :
    p.2 = some (time, data, decide (i + 1 < owns.length)) ∧
    some p.1 = owns.get? i ∧
    (teePushOwn owns [] (some (time, data))).length = owns.length := by
  have h := teeOwnGo_get_empty time data owns i p hp
  exact ⟨h.1, h.2, teeOwnGo_length time data owns []⟩

theorem c1_tee_fanout_contents_witness :
    (teePushOwn [10, 20, 30] [] (some ((0 : Nat), [1, 2]))).get? 1
      = some (20, some (0, [1, 2], true)) ∧
    ((20, some ((0 : Nat), [1, 2], true))
        : Nat × Option (Nat × List Nat × Bool)).2
      = some (0, [1, 2], decide (1 + 1 < [10, 20, 30].length)) ∧
    some (20, some ((0 : Nat), [1, 2], true)).1 = [10, 20, 30].get? 1 ∧
    (teePushOwn [10, 20, 30] [] (some ((0 : Nat), [1, 2]))).length
      = [10, 20, 30].length :=
  ⟨rfl, c1_tee_fanout_contents [10, 20, 30] 0 [1, 2] 1 _ rfl⟩

/-- C2: pushing `none` into a tee delivers exactly one `none` to every
registered sink: every byref sink receives `push_ref none` and every owning
sink receives `push none`, in both cases one delivery per registered sink
(so a no-op for zero sinks, and no `none` is dropped). -/
theorem c2_tee_none_propagation (refs : List α) (owns : List β)
    (buffer : List D) :
    teePushRef refs (none : Option (T × List D))
      = refs.map (fun r => (r, none)) ∧
    teePushOwn owns buffer (none : Option (T × List D))
      = owns.map (fun p => (p, none)) :=
  ⟨teeRefGo_eq_map none refs, teeNoneGo_eq_map owns⟩

/-- C5: on every `Tee::push` the byref sinks are visited in exactly their
registration order and every one of them is visited, likewise the owning
sinks, and `add_pusher` / `add_ref_pusher` append the new sink at the end of
the respective shared list. -/
theorem c5_tee_registration_order (refs : List α) (owns : List β)
    (buffer : List D) (message : Option (T × List D)) (h : TeeHelper)
    (w : World α β) (p : β) (r : α) :
    (teePushRef refs message).map Prod.fst = refs ∧
    (teePushOwn owns buffer message).map Prod.fst = owns ∧
    (h.add_pusher w p).ownCells h.outputs = w.ownCells h.outputs ++ [p] ∧
    (h.add_ref_pusher w r).refCells h.ref_outputs
      = w.refCells h.ref_outputs ++ [r] := by
  refine ⟨teePushRef_map_fst refs message,
    teePushOwn_map_fst owns buffer message, ?_, ?_⟩
  · simp [TeeHelper.add_pusher]
  · simp [TeeHelper.add_ref_pusher]

/-- C7: an empty batch is not special-cased or dropped: the `MapPusher`
still applies its function and forwards exactly once, the tee still delivers
to every byref sink and to every owning sink, and every owning delivery is a
`some` message. -/
theorem c7_empty_batch_flows (time : T) (func : (T × List D) → T × List D2)
    (refs : List α) (owns : List β) :
    MapPusher.push func (some (time, ([] : List D)))
      = (none, [some (func (time, []))]) ∧
    teePushRef refs (some (time, ([] : List D)))
      = refs.map (fun r => (r, some (time, []))) ∧
    (teePushOwn owns [] (some (time, ([] : List D)))).map Prod.fst = owns ∧
    ((teePushOwn owns [] (some (time, ([] : List D)))).all
      fun q => q.2.isSome) = true :=
  ⟨rfl, teeRefGo_eq_map _ refs, teePushOwn_map_fst owns [] _,
    teeOwnGo_all_isSome time [] owns []⟩

/-- C9: cloning a `Tee` or a `TeeHelper` yields a value holding the same two
shared sink-list cells, so a sink added through any clone of the helper is
delivered to by a push through any clone of the tee: the push visits the old
sinks followed by the newly appended one. -/
theorem c9_clone_shares_lists (t : Tee D) (h : TeeHelper)
    (h1 : h.ref_outputs = t.ref_outputs) (h2 : h.outputs = t.outputs)
    (w : World α β) (s : β) (r : α) (message : Option (T × List D)) :
    t.clone.ref_outputs = t.ref_outputs ∧ t.clone.outputs = t.outputs ∧
    h.clone.ref_outputs = h.ref_outputs ∧ h.clone.outputs = h.outputs ∧
    (t.clone.push (h.clone.add_pusher w s) message).2.map Prod.fst
      = w.ownCells t.outputs ++ [s] ∧
    (t.clone.push (h.clone.add_ref_pusher w r) message).1.map Prod.fst
      = w.refCells t.ref_outputs ++ [r] := by
  refine ⟨rfl, rfl, rfl, rfl, ?_, ?_⟩
  · calc (t.clone.push (h.clone.add_pusher w s) message).2.map Prod.fst
        = (h.clone.add_pusher w s).ownCells t.outputs := by
          exact teePushOwn_map_fst _ _ _
      _ = w.ownCells t.outputs ++ [s] := by
          simp [TeeHelper.add_pusher, TeeHelper.clone, h2]
  · calc (t.clone.push (h.clone.add_ref_pusher w r) message).1.map Prod.fst
        = (h.clone.add_ref_pusher w r).refCells t.ref_outputs :=
          teePushRef_map_fst _ _
      _ = w.refCells t.ref_outputs ++ [r] := by
          simp [TeeHelper.add_ref_pusher, TeeHelper.clone, h1]

theorem c9_clone_shares_lists_witness :
    ((⟨0, 1⟩ : TeeHelper).ref_outputs = (⟨[], 0, 1⟩ : Tee Nat).ref_outputs) ∧
    ((⟨0, 1⟩ : TeeHelper).outputs = (⟨[], 0, 1⟩ : Tee Nat).outputs) ∧
    ((⟨[], 0, 1⟩ : Tee Nat).clone.ref_outputs = 0 ∧
     (⟨[], 0, 1⟩ : Tee Nat).clone.outputs = 1 ∧
     (⟨0, 1⟩ : TeeHelper).clone.ref_outputs = 0 ∧
     (⟨0, 1⟩ : TeeHelper).clone.outputs = 1 ∧
     ((⟨[], 0, 1⟩ : Tee Nat).clone.push
        ((⟨0, 1⟩ : TeeHelper).clone.add_pusher
          (⟨fun _ => ([] : List Nat), fun _ => ([] : List Nat)⟩ : World Nat Nat)
          5)
        (some ((0 : Nat), [7]))).2.map Prod.fst
       = (⟨fun _ => ([] : List Nat), fun _ => ([] : List Nat)⟩
            : World Nat Nat).ownCells 1 ++ [5] ∧
     ((⟨[], 0, 1⟩ : Tee Nat).clone.push
        ((⟨0, 1⟩ : TeeHelper).clone.add_ref_pusher
          (⟨fun _ => ([] : List Nat), fun _ => ([] : List Nat)⟩ : World Nat Nat)
          6)
        (some ((0 : Nat), [7]))).1.map Prod.fst
       = (⟨fun _ => ([] : List Nat), fun _ => ([] : List Nat)⟩
            : World Nat Nat).refCells 0 ++ [6]) :=
  ⟨rfl, rfl,
    c9_clone_shares_lists ⟨[], 0, 1⟩ ⟨0, 1⟩ rfl rfl
      ⟨fun _ => [], fun _ => []⟩ 5 6 (some (0, [7]))⟩

mutual

theorem nodeDeliver_eq_paths {M : Type} :
    ∀ (n : Node M) (message : Option M),
      Node.deliver n message
        = (Node.paths n).map (fun p => (p.1, p.2 message))
  | .sink i, message => rfl
  | .mapP func next, message => by
      rw [Node.deliver, Node.paths,
        nodeDeliver_eq_paths next (Option.map func message), List.map_map]
      rfl
  | .tee refs owns, message => by
      rw [Node.deliver, Node.paths, List.map_append,
        nodeListDeliver_eq_paths refs message,
        nodeListDeliver_eq_paths owns message]

theorem nodeListDeliver_eq_paths {M : Type} :
    ∀ (l : NodeList M) (message : Option M),
      NodeList.deliver l message
        = (NodeList.paths l).map (fun p => (p.1, p.2 message))
  | .nil, _ => rfl
  | .cons n rest, message => by
      rw [NodeList.deliver, NodeList.paths, List.map_append,
        nodeDeliver_eq_paths n message,
        nodeListDeliver_eq_paths rest message]

end

theorem filter_map_eval {M : Type} (j : Nat) (message : Option M)
    (l : List (Nat × (Option M → Option M))) :
    (((l.map (fun p => (p.1, p.2 message))).filter
        (fun p => p.1 == j)).map Prod.snd)
      = ((l.filter (fun p => p.1 == j)).map Prod.snd).map
          (fun g => g message) := by
  induction l with
  | nil => rfl
  | cons p rest ih =>
      cases hpj : (p.1 == j) with
      | true => simp [List.filter_cons, hpj, ih]
      | false => simp [List.filter_cons, hpj, ih]

theorem deliver_filtered {M : Type} (n : Node M) (j : Nat)
    (message : Option M) :
    (((Node.deliver n message).filter (fun p => p.1 == j)).map Prod.snd)
      = (Node.transformsTo n j).map (fun g => g message) := by
  rw [nodeDeliver_eq_paths, filter_map_eval]
  rfl

/-- C6: for a sequence of pushes into a chain of transforming pushers and
tees, a terminal sink that the wiring reaches by exactly one path observes
exactly one message per push, in push order: the observed trace is the pushed
sequence, message-wise transformed, with nothing reordered, duplicated or
coalesced. -/
theorem c6_chain_order_preserved {M : Type} (n : Node M) (j : Nat)
    (g : Option M → Option M) (hg : Node.transformsTo n j = [g])
    (msgs : List (Option M)) :
    Node.observedAt n j msgs = msgs.map g := by
  have hper : ∀ message : Option M,
      (((Node.deliver n message).filter (fun p => p.1 == j)).map Prod.snd)
        = [g message] := by
    intro message
    rw [deliver_filtered, hg]
    rfl
  unfold Node.observedAt Node.runSeq
  induction msgs with
  | nil => rfl
  | cons m rest ih =>
      simp only [List.map_cons, List.flatten_cons, List.filter_append,
        List.map_append, hper m] at *
      exact congrArg _ ih

theorem c6_chain_order_preserved_witness :
    Node.transformsTo
        (Node.tee (NodeList.cons (Node.sink 0) NodeList.nil)
          (NodeList.cons (Node.mapP (fun x : Nat => x + 1) (Node.sink 1))
            (NodeList.cons (Node.sink 2) NodeList.nil))) 1
      = [fun message => Option.map (fun x : Nat => x + 1) message] ∧
    Node.observedAt
        (Node.tee (NodeList.cons (Node.sink 0) NodeList.nil)
          (NodeList.cons (Node.mapP (fun x : Nat => x + 1) (Node.sink 1))
            (NodeList.cons (Node.sink 2) NodeList.nil))) 1
        [some 5, none, some 7]
      = List.map (fun message => Option.map (fun x : Nat => x + 1) message)
          [some 5, none, some 7] :=
  ⟨rfl,
    c6_chain_order_preserved
      (Node.tee (NodeList.cons (Node.sink 0) NodeList.nil)
        (NodeList.cons (Node.mapP (fun x : Nat => x + 1) (Node.sink 1))
          (NodeList.cons (Node.sink 2) NodeList.nil))) 1
      (fun message => Option.map (fun x : Nat => x + 1) message) rfl
      [some 5, none, some 7]⟩

/-- C8 as stated is false on this code: `map_batch` does not mint a fresh
stream identity. At a concrete upstream stream named `7`, the returned
stream's name equals the upstream's name, and the scope's identity mint is
left untouched (no `new_output` call). -/
theorem c8_counterexample_same_name :
    (StreamHandle.map_batch ⟨7, ⟨0, 1⟩, 3⟩ ⟨2, ⟨0⟩, fun _ => 0⟩).1.name
      = (⟨7, ⟨0, 1⟩, 3⟩ : StreamHandle).name ∧
    (StreamHandle.map_batch ⟨7, ⟨0, 1⟩, 3⟩ ⟨2, ⟨0⟩, fun _ => 0⟩).2.scope
      = (⟨2, ⟨0⟩, fun _ => 0⟩ : Graph).scope :=
  ⟨rfl, rfl⟩

/-- C8 (amended): `map_batch` allocates its downstream tee directly through
`Tee::new` (two fresh shared cells become the returned registration handle),
attaches one more owning sink (the `MapPusher`) to the upstream stream's
sink list, and returns a stream handle reusing the upstream stream's name
and scope reference; the scope's `new_output` is not consulted, so the
result's identity equals the upstream stream's identity. -/
theorem c8_map_batch_wiring (s : StreamHandle) (g : Graph) :
    (s.map_batch g).1.name = s.name ∧
    (s.map_batch g).1.ports = ⟨g.nextCell, g.nextCell + 1⟩ ∧
    (s.map_batch g).1.scopeRef = s.scopeRef ∧
    (s.map_batch g).2.scope = g.scope ∧
    (s.map_batch g).2.attachedOwn s.ports.outputs
      = g.attachedOwn s.ports.outputs + 1 ∧
    (s.map_batch g).2.nextCell = g.nextCell + 2 := by
  refine ⟨rfl, rfl, rfl, rfl, ?_, rfl⟩
  simp [StreamHandle.map_batch]
